import Mathlib

/-!
Shallow embedding of the codegraph core: the SQLite-backed graph store
(src/storage/sqlite.rs), the graph builder (src/core/graph.rs) and the
query engine (src/core/query.rs).  The store is modelled as explicit list
state; each Rust function that returns `Result` only for store failures is
modelled as a total function, and functions whose flow can hit a SQL
UNIQUE-constraint violation return `Option`.  SQLite rowids are modelled
as per-table counters; `chrono::Utc::now()` timestamps are an explicit
`now : Nat` argument.
-/

/-- Row of the `projects` table (models.rs `ProjectRecord`). -/
structure ProjectRec where
  id : Int
  name : String
  root_path : String
  created_at : Nat
  updated_at : Nat
deriving DecidableEq

/-- Row of the `files` table (models.rs `FileRecord`). -/
structure FileRec where
  id : Int
  project_id : Int
  path : String
  language : String
  content_hash : String
  parsed_at : Nat
deriving DecidableEq

/-- Row of the `nodes` table (models.rs `NodeRecord`); spans are 1-based u32. -/
structure NodeRec where
  id : Int
  file_id : Int
  node_type : String
  name : String
  qualified_name : Option String
  start_line : Nat
  start_column : Nat
  end_line : Nat
  end_column : Nat
  attributes : Option String
deriving DecidableEq

/-- Row of the `edges` table (models.rs `EdgeRecord`). -/
structure EdgeRec where
  id : Int
  source_id : Int
  target_id : Int
  edge_type : String
  attributes : Option String
deriving DecidableEq

/-- Fragment node before storage (models.rs `NodeData`). -/
structure NodeData where
  node_type : String
  name : String
  qualified_name : Option String
  start_line : Nat
  start_column : Nat
  end_line : Nat
  end_column : Nat
  attributes : Option String
deriving DecidableEq

/-- Fragment edge before storage; endpoints are 0-based local indices
(models.rs `EdgeData`, `source_idx`/`target_idx` are u32). -/
structure EdgeData where
  source_idx : Nat
  target_idx : Nat
  edge_type : String
  attributes : Option String
deriving DecidableEq

/-- Output of one extraction run (parser.rs `FileGraphData`). -/
structure FileGraphData where
  nodes : List NodeData
  edges : List EdgeData
  content_hash : String
deriving DecidableEq

/-- The persisted store: the four tables in row order plus the next rowid
of each table.  Models the SQLite database of sqlite.rs. -/
structure DB where
  projects : List ProjectRec
  files : List FileRec
  nodes : List NodeRec
  edges : List EdgeRec
  nextProjectId : Int
  nextFileId : Int
  nextNodeId : Int
  nextEdgeId : Int
deriving DecidableEq

/-- ASCII lower-casing of one character, as SQLite's default `LIKE`
comparison folds case for ASCII only. -/
def lowerChar (c : Char) : Char :=
  if 'A' ≤ c ∧ c ≤ 'Z' then Char.ofNat (c.toNat + 32) else c

/-- SQLite `LIKE` pattern matching (default, ASCII-case-insensitive):
`%` matches any sequence, `_` any single character, anything else itself
up to ASCII case. -/
def likeMatch : List Char → List Char → Bool
  | [], [] => true
  | [], _ :: _ => false
  | '%' :: ps, [] => likeMatch ps []
  | '%' :: ps, c :: s => likeMatch ps (c :: s) || likeMatch ('%' :: ps) s
  | '_' :: _, [] => false
  | '_' :: ps, _ :: s => likeMatch ps s
  | _ :: _, [] => false
  | p :: ps, c :: s => (lowerChar p == lowerChar c) && likeMatch ps s
termination_by ps s => (s.length, ps.length)

/-- The test `x LIKE '%{q}%'` built by sqlite.rs `search_symbols`
(`format!("%{}%", query)`). -/
def likeContains (q s : String) : Bool :=
  likeMatch ('%' :: (q.data ++ ['%'])) s.data

/-- sqlite.rs `get_project_by_path`: `SELECT ... FROM projects WHERE
root_path = ?1` (first row). -/
def getProjectByPath (st : DB) (root_path : String) : Option ProjectRec :=
  st.projects.find? (fun p => p.root_path == root_path)

/-- sqlite.rs `insert_project`; the UNIQUE constraint on `root_path` makes
the insert fail (`none`) when the path is already present. -/
def insertProject (st : DB) (p : ProjectRec) : Option (Int × DB) :=
  if st.projects.any (fun q => q.root_path == p.root_path) then none
  else some (st.nextProjectId,
    { st with
      projects := st.projects ++ [{ p with id := st.nextProjectId }]
      nextProjectId := st.nextProjectId + 1 })

/-- sqlite.rs `update_project_timestamp`: `UPDATE projects SET updated_at
= ?1 WHERE id = ?2`. -/
def updateProjectTimestamp (st : DB) (project_id : Int) (now : Nat) : DB :=
  { st with
    projects := st.projects.map
      (fun p => if p.id == project_id then { p with updated_at := now } else p) }

/-- sqlite.rs `get_file_by_path`: first row with matching
`(project_id, path)`. -/
def getFileByPath (st : DB) (project_id : Int) (path : String) : Option FileRec :=
  st.files.find? (fun f => f.project_id == project_id && f.path == path)

/-- sqlite.rs `get_file`: first row with the given id. -/
def getFile (st : DB) (file_id : Int) : Option FileRec :=
  st.files.find? (fun f => f.id == file_id)

/-- sqlite.rs `insert_file`; fails on the UNIQUE `(project_id, path)`
constraint. -/
def insertFile (st : DB) (f : FileRec) : Option (Int × DB) :=
  if st.files.any (fun g => g.project_id == f.project_id && g.path == f.path) then none
  else some (st.nextFileId,
    { st with
      files := st.files ++ [{ f with id := st.nextFileId }]
      nextFileId := st.nextFileId + 1 })

/-- sqlite.rs `delete_file_data`: `DELETE FROM nodes WHERE file_id = ?1`
(edges cascade on either endpoint) then `DELETE FROM files WHERE id = ?1`. -/
def deleteFileData (st : DB) (file_id : Int) : DB :=
  let dead := st.nodes.filter (fun n => n.file_id == file_id)
  { st with
    nodes := st.nodes.filter (fun n => !(n.file_id == file_id))
    edges := st.edges.filter (fun e =>
      !(dead.any (fun n => n.id == e.source_id || n.id == e.target_id)))
    files := st.files.filter (fun f => !(f.id == file_id)) }

/-- sqlite.rs `insert_node`: rowid assigned by SQLite, returned via
`last_insert_rowid`. -/
def insertNode (st : DB) (n : NodeRec) : Int × DB :=
  (st.nextNodeId,
    { st with
      nodes := st.nodes ++ [{ n with id := st.nextNodeId }]
      nextNodeId := st.nextNodeId + 1 })

/-- sqlite.rs `insert_edge`. -/
def insertEdge (st : DB) (e : EdgeRec) : Int × DB :=
  (st.nextEdgeId,
    { st with
      edges := st.edges ++ [{ e with id := st.nextEdgeId }]
      nextEdgeId := st.nextEdgeId + 1 })

/-- The `JOIN files f ON n.file_id = f.id WHERE f.project_id = ?1` part of
the node queries: the node belongs to a file of the project. -/
def inProject (st : DB) (project_id : Int) (n : NodeRec) : Bool :=
  st.files.any (fun f => f.id == n.file_id && f.project_id == project_id)

/-- First node row with the given id (a `JOIN ... ON ... = n.id`). -/
def lookupNode (st : DB) (node_id : Int) : Option NodeRec :=
  st.nodes.find? (fun n => n.id == node_id)

/-- The WHERE clause of sqlite.rs `find_node_at_position`:
`start_line <= L AND end_line >= L AND (start_line < L OR start_column <= C)
AND (end_line > L OR end_column >= C)`. -/
def spanContains (n : NodeRec) (line column : Nat) : Bool :=
  n.start_line ≤ line && line ≤ n.end_line &&
    (n.start_line < line || n.start_column ≤ column) &&
    (line < n.end_line || n.end_column ≥ column)

/-- The `ORDER BY (end_line - start_line), (end_column - start_column)`
sort key; SQLite subtracts the stored u32 values as signed integers. -/
def spanKey (n : NodeRec) : Int × Int :=
  ((n.end_line : Int) - (n.start_line : Int),
   (n.end_column : Int) - (n.start_column : Int))

/-- Strict lexicographic comparison of sort keys. -/
def keyLt (a b : Int × Int) : Bool :=
  a.1 < b.1 || (a.1 == b.1 && a.2 < b.2)

/-- One comparison step of the `ORDER BY ... LIMIT 1` minimum: keep the
current row unless the new row's key is strictly smaller. -/
def selectStep (acc : Option NodeRec) (n : NodeRec) : Option NodeRec :=
  match acc with
  | none => some n
  | some m => if keyLt (spanKey n) (spanKey m) then some n else some m

/-- The `ORDER BY key LIMIT 1` step: a row of minimal key (first such row wins). -/
def selectMinByKey (l : List NodeRec) : Option NodeRec :=
  l.foldl selectStep none

/-- sqlite.rs `find_node_at_position`. -/
def findNodeAtPosition (st : DB) (project_id : Int) (file_path : String)
    (line column : Nat) : Option NodeRec :=
  selectMinByKey
    ((st.nodes.filter (fun n =>
        st.files.any (fun f =>
          f.id == n.file_id && f.project_id == project_id && f.path == file_path) &&
        spanContains n line column)))

/-- sqlite.rs `find_symbol_by_name`: first project node whose name or
qualified name equals the argument. -/
def findSymbolByName (st : DB) (project_id : Int) (name : String) : Option NodeRec :=
  st.nodes.find? (fun n =>
    inProject st project_id n &&
      (n.name == name || n.qualified_name == some name))

/-- The match test of sqlite.rs `search_symbols`:
`name LIKE '%q%' OR qualified_name LIKE '%q%'` (a NULL qualified name
never matches). -/
def searchNameMatches (q : String) (n : NodeRec) : Bool :=
  likeContains q n.name ||
    (match n.qualified_name with
     | some s => likeContains q s
     | none => false)

/-- sqlite.rs `search_symbols`: project filter, optional exact
`node_type` filter, LIKE match, `LIMIT ?`. -/
def searchSymbolsDb (st : DB) (project_id : Int) (query : String)
    (symbol_type : Option String) (limit : Nat) : List NodeRec :=
  (st.nodes.filter (fun n =>
      inProject st project_id n &&
        (match symbol_type with
         | some t => n.node_type == t
         | none => true) &&
        searchNameMatches query n)).take limit

/-- The `e.source_id = n.id AND e.edge_type = 'references'` join test used
by `get_unresolved_references`. -/
def hasOutgoingRefEdge (st : DB) (node_id : Int) : Bool :=
  st.edges.any (fun e => e.source_id == node_id && e.edge_type == "references")

/-- sqlite.rs `get_unresolved_references`: `(id, name)` of every
`reference`-kind project node with no outgoing `references` edge. -/
def getUnresolvedReferences (st : DB) (project_id : Int) : List (Int × String) :=
  (st.nodes.filter (fun n =>
      inProject st project_id n && n.node_type == "reference" &&
        !hasOutgoingRefEdge st n.id)).map (fun n => (n.id, n.name))

/-- The SQL IN-list of sqlite.rs `find_definition_by_name`:
`node_type IN ('function', 'method', 'class', 'interface', 'struct',
'variable')`. -/
def definitionKinds : List String :=
  ["function", "method", "class", "interface", "struct", "variable"]

/-- sqlite.rs `find_definition_by_name`: id of the first project node with
the given name and a kind in `definitionKinds` (`LIMIT 1`). -/
def findDefinitionByName (st : DB) (project_id : Int) (name : String) : Option Int :=
  (st.nodes.find? (fun n =>
      inProject st project_id n && n.name == name &&
        definitionKinds.contains n.node_type)).map (fun n => n.id)

/-- sqlite.rs `find_reference_target`: target node of the first
`references` edge leaving the given node. -/
def findReferenceTarget (st : DB) (node_id : Int) : Option NodeRec :=
  st.edges.findSome? (fun e =>
    if e.source_id == node_id && e.edge_type == "references" then
      lookupNode st e.target_id
    else none)

/-- sqlite.rs `find_all_references`: one source node per incoming
`references` edge. -/
def findAllReferences (st : DB) (node_id : Int) : List NodeRec :=
  st.edges.filterMap (fun e =>
    if e.target_id == node_id && e.edge_type == "references" then
      lookupNode st e.source_id
    else none)

/-- sqlite.rs `find_callers`: one source node per incoming `calls` edge. -/
def findCallers (st : DB) (node_id : Int) : List NodeRec :=
  st.edges.filterMap (fun e =>
    if e.target_id == node_id && e.edge_type == "calls" then
      lookupNode st e.source_id
    else none)

/-- sqlite.rs `find_callees`: one target node per outgoing `calls` edge. -/
def findCallees (st : DB) (node_id : Int) : List NodeRec :=
  st.edges.filterMap (fun e =>
    if e.source_id == node_id && e.edge_type == "calls" then
      lookupNode st e.target_id
    else none)

/-! ## Graph builder (src/core/graph.rs) -/

/-- graph.rs `create_or_get_project`: look up the root path; if present
return the existing id without touching the store, otherwise insert a new
project row carrying the supplied name and `now` timestamps. -/
def createOrGetProject (st : DB) (name root_path : String) (now : Nat) :
    Option (Int × DB) :=
  match getProjectByPath st root_path with
  | some p => some (p.id, st)
  | none =>
    insertProject st
      { id := 0, name := name, root_path := root_path
        created_at := now, updated_at := now }

/-- The node-insert loop of graph.rs `store_file_graph`: insert each
fragment node in order, recording the local index to rowid map
(`node_id_map`). -/
def insertNodesLoop (st : DB) (file_id : Int) :
    List NodeData → Nat → DB × List (Nat × Int)
  | [], _ => (st, [])
  | nd :: rest, idx =>
    let r := insertNode st
      { id := 0, file_id := file_id, node_type := nd.node_type
        name := nd.name, qualified_name := nd.qualified_name
        start_line := nd.start_line, start_column := nd.start_column
        end_line := nd.end_line, end_column := nd.end_column
        attributes := nd.attributes }
    let rec2 := insertNodesLoop r.2 file_id rest (idx + 1)
    (rec2.1, (idx, r.1) :: rec2.2)

/-- The edge-insert loop of graph.rs `store_file_graph`: translate both
endpoints through `node_id_map`; if either local index is missing from the
map the edge is skipped, otherwise the translated edge is inserted. -/
def insertEdgesLoop (st : DB) (m : List (Nat × Int)) : List EdgeData → DB
  | [] => st
  | ed :: rest =>
    match m.lookup ed.source_idx, m.lookup ed.target_idx with
    | some s, some t =>
      insertEdgesLoop
        (insertEdge st
          { id := 0, source_id := s, target_id := t
            edge_type := ed.edge_type, attributes := ed.attributes }).2
        m rest
    | some _, none => insertEdgesLoop st m rest
    | none, _ => insertEdgesLoop st m rest

/-- The insert branch of graph.rs `store_file_graph` (steps after change
detection): insert the file row, the nodes, then the translated edges. -/
def storeNewFile (st : DB) (project_id : Int) (file_path language : String)
    (graph_data : FileGraphData) (now : Nat) : Option (Int × DB) :=
  match insertFile st
      { id := 0, project_id := project_id, path := file_path
        language := language, content_hash := graph_data.content_hash
        parsed_at := now } with
  | none => none
  | some (file_id, st1) =>
    let r := insertNodesLoop st1 file_id graph_data.nodes 0
    some (file_id, insertEdgesLoop r.1 r.2 graph_data.edges)

/-- graph.rs `store_file_graph`: change detection by content hash, then
delete-and-reinsert on change, insert on first sight, no-op on identical
hash. -/
def storeFileGraph (st : DB) (project_id : Int) (file_path language : String)
    (graph_data : FileGraphData) (now : Nat) : Option (Int × DB) :=
  match getFileByPath st project_id file_path with
  | some existing =>
    if existing.content_hash == graph_data.content_hash then
      some (existing.id, st)
    else
      storeNewFile (deleteFileData st existing.id) project_id file_path
        language graph_data now
  | none => storeNewFile st project_id file_path language graph_data now

/-- The resolution loop of graph.rs `build_cross_references`: for each
unresolved `(id, name)` pair, look the name up among definition-kind nodes
and insert a `references` edge on a hit. -/
def bcrLoop (st : DB) (project_id : Int) : List (Int × String) → DB
  | [] => st
  | (ref_node_id, ref_name) :: rest =>
    match findDefinitionByName st project_id ref_name with
    | some def_node_id =>
      bcrLoop
        (insertEdge st
          { id := 0, source_id := ref_node_id, target_id := def_node_id
            edge_type := "references", attributes := none }).2
        project_id rest
    | none => bcrLoop st project_id rest

/-- graph.rs `build_cross_references`: resolve the unresolved set computed
up front, then update the project timestamp. -/
def buildCrossReferences (st : DB) (project_id : Int) (now : Nat) : DB :=
  updateProjectTimestamp
    (bcrLoop st project_id (getUnresolvedReferences st project_id))
    project_id now

/-! ## Query engine (src/core/query.rs) -/

/-- query.rs `SymbolLocation` (the `context` field is always `None`). -/
structure SymbolLocation where
  file : String
  line : Nat
  column : Nat
  node_type : String
  name : String
  qualified_name : Option String
  context : Option String
deriving DecidableEq

/-- query.rs `SymbolInfo`. -/
structure SymbolInfo where
  name : String
  qualified_name : Option String
  node_type : String
  file : String
  line : Nat
  column : Nat
deriving DecidableEq

/-- query.rs `DefinitionResult`. -/
structure DefinitionResult where
  found : Bool
  definition : Option SymbolLocation
deriving DecidableEq

/-- query.rs `ReferencesResult`. -/
structure ReferencesResult where
  count : Nat
  references : List SymbolLocation
deriving DecidableEq

/-- query.rs `CallGraphResult`. -/
structure CallGraphResult where
  center : SymbolInfo
  callers : List SymbolInfo
  callees : List SymbolInfo
deriving DecidableEq

/-- query.rs `SymbolSearchResult`. -/
structure SymbolSearchResult where
  count : Nat
  symbols : List SymbolInfo
deriving DecidableEq

/-- The `SymbolLocation` built by query.rs from a node row: the file path
comes from `get_file` (empty string when absent), the position is the
node's start. -/
def locationOf (st : DB) (n : NodeRec) : SymbolLocation :=
  { file := ((getFile st n.file_id).map (fun f => f.path)).getD ""
    line := n.start_line, column := n.start_column
    node_type := n.node_type, name := n.name
    qualified_name := n.qualified_name, context := none }

/-- The `SymbolInfo` built by query.rs from a node row. -/
def symbolInfoOf (st : DB) (n : NodeRec) : SymbolInfo :=
  { name := n.name, qualified_name := n.qualified_name
    node_type := n.node_type
    file := ((getFile st n.file_id).map (fun f => f.path)).getD ""
    line := n.start_line, column := n.start_column }

/-- query.rs `find_definition`: locate the node at the position, follow
its outgoing `references` edge when one exists, otherwise report the node
itself; no node at the position is a successful negative result. -/
def findDefinition (st : DB) (project_id : Int) (file : String)
    (line column : Nat) : DefinitionResult :=
  match findNodeAtPosition st project_id file line column with
  | some n =>
    match findReferenceTarget st n.id with
    | some target => { found := true, definition := some (locationOf st target) }
    | none => { found := true, definition := some (locationOf st n) }
  | none => { found := false, definition := none }

/-- query.rs `find_references`: locate the node at the position and list
the sources of its incoming `references` edges; empty on no node. -/
def findReferences (st : DB) (project_id : Int) (file : String)
    (line column : Nat) : ReferencesResult :=
  match findNodeAtPosition st project_id file line column with
  | some n =>
    let refs := (findAllReferences st n.id).map (locationOf st)
    { count := refs.length, references := refs }
  | none => { count := 0, references := [] }

/-- query.rs `collect_callers`: empty at depth 0, otherwise the one-hop
caller list (the depth is not used further). -/
def collectCallers (st : DB) (node_id : Int) (depth : Nat) : List SymbolInfo :=
  if depth == 0 then []
  else (findCallers st node_id).map (symbolInfoOf st)

/-- query.rs `collect_callees`: empty at depth 0, otherwise the one-hop
callee list. -/
def collectCallees (st : DB) (node_id : Int) (depth : Nat) : List SymbolInfo :=
  if depth == 0 then []
  else (findCallees st node_id).map (symbolInfoOf st)

/-- query.rs `get_callgraph`: resolve the symbol by exact
name-or-qualified-name match; `none` models the hard
`Symbol not found` error. -/
def getCallgraph (st : DB) (project_id : Int) (symbol : String)
    (depth : Nat) (direction : String) : Option CallGraphResult :=
  match findSymbolByName st project_id symbol with
  | some n =>
    some
      { center := symbolInfoOf st n
        callers :=
          if direction == "callers" || direction == "both" then
            collectCallers st n.id depth
          else []
        callees :=
          if direction == "callees" || direction == "both" then
            collectCallees st n.id depth
          else [] }
  | none => none

/-- query.rs `search_symbols` (query engine layer over the store query). -/
def searchSymbolsQ (st : DB) (project_id : Int) (query : String)
    (symbol_type : Option String) (limit : Nat) : SymbolSearchResult :=
  let symbols :=
    (searchSymbolsDb st project_id query symbol_type limit).map (symbolInfoOf st)
  { count := symbols.length, symbols := symbols }

/-- Character-by-character anchored match (case-sensitive), helper for the
spec-side substring test. -/
def charsStartWith : List Char → List Char → Bool
  | [], _ => true
  | _ :: _, [] => false
  | a :: as, b :: bs => a == b && charsStartWith as bs

/-- Case-sensitive occurrence of `q` anywhere in the character list. -/
def containsSeq (q : List Char) : List Char → Bool
  | [] => charsStartWith q []
  | c :: s => charsStartWith q (c :: s) || containsSeq q s

/-- Modelled from the spec's words for the search-symbols claim: the query
occurs in the candidate string as a case-SENSITIVE substring.  Written only
to compare the claim's predicate with the code's SQLite-LIKE test. -/
def specCaseSensitiveSub (q s : String) : Bool :=
  containsSeq q.data s.data

/-! ## Concrete store states used as witnesses -/

/-- A project row used by the concrete states. -/
def projP : ProjectRec :=
  { id := 1, name := "proj", root_path := "/p", created_at := 0, updated_at := 0 }

/-- A file row used by the concrete states. -/
def fileA : FileRec :=
  { id := 1, project_id := 1, path := "/p/a.go", language := "go"
    content_hash := "h", parsed_at := 0 }

/-- Function `main`, spanning lines 1-20 (the outer node A). -/
def nodeMain : NodeRec :=
  { id := 10, file_id := 1, node_type := "function", name := "main"
    qualified_name := some "main.main", start_line := 1, start_column := 1
    end_line := 20, end_column := 1, attributes := none }

/-- Function `helper`, spanning lines 5-8 (the inner node B). -/
def nodeHelper : NodeRec :=
  { id := 11, file_id := 1, node_type := "function", name := "helper"
    qualified_name := some "main.helper", start_line := 5, start_column := 1
    end_line := 8, end_column := 2, attributes := none }

/-- A `reference`-kind node naming `helper` at line 6, columns 3-8. -/
def nodeRefHelper : NodeRec :=
  { id := 12, file_id := 1, node_type := "reference", name := "helper"
    qualified_name := none, start_line := 6, start_column := 3
    end_line := 6, end_column := 8, attributes := none }

/-- A `calls` edge from `main` to `helper`. -/
def edgeCall : EdgeRec :=
  { id := 100, source_id := 10, target_id := 11, edge_type := "calls"
    attributes := none }

/-- The reference node resolves to `helper`. -/
def edgeRef : EdgeRec :=
  { id := 101, source_id := 12, target_id := 11, edge_type := "references"
    attributes := none }

/-- A populated store: one project, one file, `main` calling `helper` and a
resolved reference to `helper`. -/
def sampleSt : DB :=
  { projects := [projP], files := [fileA]
    nodes := [nodeMain, nodeHelper, nodeRefHelper]
    edges := [edgeCall, edgeRef]
    nextProjectId := 2, nextFileId := 2, nextNodeId := 13, nextEdgeId := 102 }

/-- A store whose only candidate definition for the unresolved reference
`x` is a `field`-kind node. -/
def stFieldRef : DB :=
  { projects := [projP], files := [fileA]
    nodes :=
      [{ id := 20, file_id := 1, node_type := "reference", name := "x"
         qualified_name := none, start_line := 2, start_column := 1
         end_line := 2, end_column := 2, attributes := none },
       { id := 21, file_id := 1, node_type := "field", name := "x"
         qualified_name := none, start_line := 1, start_column := 1
         end_line := 1, end_column := 2, attributes := none }]
    edges := []
    nextProjectId := 2, nextFileId := 2, nextNodeId := 22, nextEdgeId := 200 }

/-- Class node `UserService`. -/
def nodeUserService : NodeRec :=
  { id := 30, file_id := 1, node_type := "class", name := "UserService"
    qualified_name := none, start_line := 1, start_column := 1
    end_line := 2, end_column := 1, attributes := none }

/-- Class node `UserRepository`. -/
def nodeUserRepo : NodeRec :=
  { id := 31, file_id := 1, node_type := "class", name := "UserRepository"
    qualified_name := none, start_line := 3, start_column := 1
    end_line := 4, end_column := 1, attributes := none }

/-- Class node `OrderService`. -/
def nodeOrderService : NodeRec :=
  { id := 32, file_id := 1, node_type := "class", name := "OrderService"
    qualified_name := none, start_line := 5, start_column := 1
    end_line := 6, end_column := 1, attributes := none }

/-- A store with class nodes UserService, UserRepository and OrderService. -/
def stUsers : DB :=
  { projects := [projP], files := [fileA]
    nodes := [nodeUserService, nodeUserRepo, nodeOrderService]
    edges := []
    nextProjectId := 2, nextFileId := 2, nextNodeId := 33, nextEdgeId := 300 }

/-- Class node with the all-lower-case name `userservice`. -/
def nodeLowerService : NodeRec :=
  { id := 35, file_id := 1, node_type := "class", name := "userservice"
    qualified_name := none, start_line := 1, start_column := 1
    end_line := 2, end_column := 1, attributes := none }

/-- A store with a single class node whose name `userservice` only matches
the query `User` when case is folded. -/
def stLower : DB :=
  { projects := [projP], files := [fileA]
    nodes := [nodeLowerService]
    edges := []
    nextProjectId := 2, nextFileId := 2, nextNodeId := 36, nextEdgeId := 400 }

/-- A store with one unresolved reference to `helper` and the matching
function definition, no edges yet. -/
def stC9pre : DB :=
  { projects := [projP], files := [fileA]
    nodes :=
      [{ id := 40, file_id := 1, node_type := "reference", name := "helper"
         qualified_name := none, start_line := 2, start_column := 1
         end_line := 2, end_column := 6, attributes := none },
       { id := 41, file_id := 1, node_type := "function", name := "helper"
         qualified_name := some "main.helper", start_line := 5, start_column := 1
         end_line := 8, end_column := 2, attributes := none }]
    edges := []
    nextProjectId := 2, nextFileId := 2, nextNodeId := 42, nextEdgeId := 500 }

/-! ## C10: create_or_get_project on an existing root path -/

/-- C10: `create_or_get_project` called with a root path for which a
project already exists returns that project's existing id and leaves the
store — in particular the stored name and timestamps — entirely
unchanged, whatever name argument is supplied. -/
theorem C10_create_or_get_existing (st : DB) (name root_path : String)
    (now : Nat) (p : ProjectRec) (hp : getProjectByPath st root_path = some p) :
    createOrGetProject st name root_path now = some (p.id, st) := by
  simp [createOrGetProject, hp]

/-- Witness for C10: looking `/p` up again under a different name returns
the stored id 1 and the unchanged store. -/
theorem C10_create_or_get_existing_witness :
    createOrGetProject sampleSt "renamed" "/p" 7 = some (1, sampleSt) :=
  C10_create_or_get_existing sampleSt "renamed" "/p" 7 projP (by rfl)

/-! ## C2: store_file_graph is a no-op on an unchanged fingerprint -/

/-- C2: when the file at `(project, path)` is already stored with the same
content hash as the incoming fragment, `store_file_graph` returns the
existing file id and the store is left exactly as it was: no file, node or
edge row is deleted or inserted. -/
theorem C2_store_unchanged_noop (st : DB) (project_id : Int)
    (file_path language : String) (graph_data : FileGraphData) (now : Nat)
    (f : FileRec) (hf : getFileByPath st project_id file_path = some f)
    (hh : f.content_hash = graph_data.content_hash) :
    storeFileGraph st project_id file_path language graph_data now
      = some (f.id, st) := by
  simp [storeFileGraph, hf, hh]

/-- Witness for C2: re-storing `/p/a.go` with the stored hash `h` returns
file id 1 and the identical store. -/
theorem C2_store_unchanged_noop_witness :
    storeFileGraph sampleSt 1 "/p/a.go" "go"
        { nodes := [], edges := [], content_hash := "h" } 3
      = some (1, sampleSt) :=
  C2_store_unchanged_noop sampleSt 1 "/p/a.go" "go"
    { nodes := [], edges := [], content_hash := "h" } 3 fileA (by rfl) (by rfl)


/-! ## C3: out-of-range fragment edges are dropped, never fatal -/

/-- The `node_id_map` built by the node-insert loop starting at `idx` is
defined exactly on the local indices `idx ≤ j < idx + (number of nodes)`. -/
theorem insertNodesLoop_lookup (nds : List NodeData) :
    ∀ (st : DB) (file_id : Int) (idx j : Nat),
      (((insertNodesLoop st file_id nds idx).2.lookup j).isSome = true)
        ↔ (idx ≤ j ∧ j < idx + nds.length) := by
  induction nds with
  | nil =>
    intro st file_id idx j
    simp [insertNodesLoop, List.lookup]
  | cons nd rest ih =>
    intro st file_id idx j
    by_cases h : j = idx
    · subst h
      simp [insertNodesLoop, List.lookup]
    · have hbeq : (j == idx) = false := by simp [h]
      simp only [insertNodesLoop, List.lookup, hbeq]
      rw [ih]
      simp only [List.length_cons]
      omega

/-- Filtering the fragment edge list down to the edges whose endpoints the
map covers does not change the edge-insert loop's result. -/
theorem insertEdgesLoop_filter (m : List (Nat × Int)) (p : EdgeData → Bool)
    (hp : ∀ e, p e = ((m.lookup e.source_idx).isSome &&
      (m.lookup e.target_idx).isSome)) :
    ∀ (es : List EdgeData) (st : DB),
      insertEdgesLoop st m (es.filter p) = insertEdgesLoop st m es := by
  intro es
  induction es with
  | nil => intro st; rfl
  | cons e rest ih =>
    intro st
    cases hs : m.lookup e.source_idx with
    | none =>
      have hpe : p e = false := by rw [hp, hs]; rfl
      simp [List.filter_cons, hpe, insertEdgesLoop, hs, ih]
    | some s =>
      cases ht : m.lookup e.target_idx with
      | none =>
        have hpe : p e = false := by rw [hp, hs, ht]; rfl
        simp [List.filter_cons, hpe, insertEdgesLoop, hs, ht, ih]
      | some t =>
        have hpe : p e = true := by rw [hp, hs, ht]; rfl
        simp [List.filter_cons, hpe, insertEdgesLoop, hs, ht, ih]

/-- The edge-insert loop only appends to the edge table. -/
theorem insertEdgesLoop_edges_mono (m : List (Nat × Int)) :
    ∀ (es : List EdgeData) (st : DB),
      ∃ ext, (insertEdgesLoop st m es).edges = st.edges ++ ext := by
  intro es
  induction es with
  | nil => intro st; exact ⟨[], by simp [insertEdgesLoop]⟩
  | cons e rest ih =>
    intro st
    cases hs : m.lookup e.source_idx with
    | none => simpa [insertEdgesLoop, hs] using ih st
    | some s =>
      cases ht : m.lookup e.target_idx with
      | none => simpa [insertEdgesLoop, hs, ht] using ih st
      | some t =>
        obtain ⟨ext, hext⟩ := ih (insertEdge st { id := 0, source_id := s, target_id := t, edge_type := e.edge_type, attributes := e.attributes }).2
        refine ⟨{ id := st.nextEdgeId, source_id := s, target_id := t, edge_type := e.edge_type, attributes := e.attributes } :: ext, ?_⟩
        simp only [insertEdge] at hext
        simp [insertEdgesLoop, hs, ht, hext, insertEdge]

/-- Every fragment edge whose two endpoints the map covers is persisted by
the edge-insert loop with translated identifiers. -/
theorem insertEdgesLoop_persists (m : List (Nat × Int)) :
    ∀ (es : List EdgeData) (st : DB) (e : EdgeData) (s t : Int),
      e ∈ es → m.lookup e.source_idx = some s →
      m.lookup e.target_idx = some t →
      ∃ ed ∈ (insertEdgesLoop st m es).edges,
        ed.source_id = s ∧ ed.target_id = t ∧
        ed.edge_type = e.edge_type ∧ ed.attributes = e.attributes := by
  intro es
  induction es with
  | nil => intro st e s t hmem; exact absurd hmem (List.not_mem_nil e)
  | cons e0 rest ih =>
    intro st e s t hmem hsrc htgt
    rcases List.mem_cons.mp hmem with heq | hrest
    · subst heq
      rw [show insertEdgesLoop st m (e :: rest)
          = insertEdgesLoop (insertEdge st { id := 0, source_id := s, target_id := t, edge_type := e.edge_type, attributes := e.attributes }).2 m rest
        from by simp [insertEdgesLoop, hsrc, htgt]]
      obtain ⟨ext, hext⟩ := insertEdgesLoop_edges_mono m rest
        (insertEdge st { id := 0, source_id := s, target_id := t, edge_type := e.edge_type, attributes := e.attributes }).2
      refine ⟨{ id := st.nextEdgeId, source_id := s, target_id := t, edge_type := e.edge_type, attributes := e.attributes }, ?_, rfl, rfl, rfl, rfl⟩
      rw [hext]
      simp [insertEdge]
    · cases hs : m.lookup e0.source_idx with
      | none => simpa [insertEdgesLoop, hs] using ih st e s t hrest hsrc htgt
      | some s0 =>
        cases ht : m.lookup e0.target_idx with
        | none => simpa [insertEdgesLoop, hs, ht] using ih st e s t hrest hsrc htgt
        | some t0 =>
          simpa [insertEdgesLoop, hs, ht] using
            ih (insertEdge st { id := 0, source_id := s0, target_id := t0, edge_type := e0.edge_type, attributes := e0.attributes }).2
              e s t hrest hsrc htgt

/-- The insert branch succeeds exactly when the file insert succeeds; the
fragment's edge list never decides success. -/
theorem storeNewFile_isSome (st : DB) (project_id : Int)
    (file_path language : String) (g : FileGraphData) (now : Nat) :
    (storeNewFile st project_id file_path language g now).isSome
      = (insertFile st
          { id := 0, project_id := project_id, path := file_path, language := language, content_hash := g.content_hash, parsed_at := now }).isSome := by
  unfold storeNewFile
  cases insertFile st
      { id := 0, project_id := project_id, path := file_path, language := language, content_hash := g.content_hash, parsed_at := now } with
  | none => rfl
  | some r => rfl

/-- The insert branch is unchanged when out-of-range fragment edges are
filtered away beforehand. -/
theorem storeNewFile_filter (st : DB) (project_id : Int)
    (file_path language : String) (g : FileGraphData) (now : Nat) :
    storeNewFile st project_id file_path language
        { g with edges := g.edges.filter (fun e =>
            decide (e.source_idx < g.nodes.length) &&
            decide (e.target_idx < g.nodes.length)) } now
      = storeNewFile st project_id file_path language g now := by
  unfold storeNewFile
  dsimp only
  cases hins : insertFile st
      { id := 0, project_id := project_id, path := file_path, language := language, content_hash := g.content_hash, parsed_at := now } with
  | none => rfl
  | some r =>
    obtain ⟨file_id, st1⟩ := r
    dsimp only
    have hdom : ∀ j, (((insertNodesLoop st1 file_id g.nodes 0).2.lookup j).isSome)
        = decide (j < g.nodes.length) := by
      intro j
      have h := insertNodesLoop_lookup g.nodes st1 file_id 0 j
      by_cases hj : j < g.nodes.length
      · simp only [decide_eq_true hj]
        exact h.mpr ⟨Nat.zero_le _, by omega⟩
      · cases hIs : (((insertNodesLoop st1 file_id g.nodes 0).2.lookup j).isSome) with
        | true => exact absurd (h.mp hIs).2 (by omega)
        | false => simp [hj]
    have hp : ∀ e : EdgeData,
        (decide (e.source_idx < g.nodes.length) &&
          decide (e.target_idx < g.nodes.length))
        = (((insertNodesLoop st1 file_id g.nodes 0).2.lookup e.source_idx).isSome &&
            ((insertNodesLoop st1 file_id g.nodes 0).2.lookup e.target_idx).isSome) := by
      intro e
      rw [hdom, hdom]
    have hloop := insertEdgesLoop_filter (insertNodesLoop st1 file_id g.nodes 0).2
      (fun e => decide (e.source_idx < g.nodes.length) &&
        decide (e.target_idx < g.nodes.length)) hp g.edges
      (insertNodesLoop st1 file_id g.nodes 0).1
    rw [hloop]

/-- C3: a fragment edge whose local source or target index is outside the
fragment node list never makes `store_file_graph` fail — the call's result
is the same as if the out-of-range edges had not been there (they are
omitted), success never depends on the edge list, and every edge whose two
endpoints the local-index map covers is persisted with translated
identifiers. -/
theorem C3_edge_drop_safety (st : DB) (project_id : Int)
    (file_path language : String) (g : FileGraphData) (now : Nat) :
    (storeFileGraph st project_id file_path language
        { g with edges := g.edges.filter (fun e =>
            decide (e.source_idx < g.nodes.length) &&
            decide (e.target_idx < g.nodes.length)) } now
      = storeFileGraph st project_id file_path language g now)
    ∧ (∀ es' : List EdgeData,
        (storeFileGraph st project_id file_path language
            { g with edges := es' } now).isSome
          = (storeFileGraph st project_id file_path language g now).isSome)
    ∧ (∀ (st0 : DB) (m : List (Nat × Int)) (es : List EdgeData)
        (e : EdgeData) (s t : Int), e ∈ es →
        m.lookup e.source_idx = some s → m.lookup e.target_idx = some t →
        ∃ ed ∈ (insertEdgesLoop st0 m es).edges,
          ed.source_id = s ∧ ed.target_id = t ∧
          ed.edge_type = e.edge_type ∧ ed.attributes = e.attributes) := by
  refine ⟨?_, ?_, fun st0 m es e s t hm hs ht =>
    insertEdgesLoop_persists m es st0 e s t hm hs ht⟩
  · unfold storeFileGraph
    dsimp only
    cases hgf : getFileByPath st project_id file_path with
    | none => exact storeNewFile_filter st project_id file_path language g now
    | some existing =>
      dsimp only
      by_cases hh : (existing.content_hash == g.content_hash) = true
      · rw [if_pos hh, if_pos hh]
      · rw [if_neg hh, if_neg hh]
        exact storeNewFile_filter (deleteFileData st existing.id) project_id
          file_path language g now
  · intro es'
    unfold storeFileGraph
    dsimp only
    cases hgf : getFileByPath st project_id file_path with
    | none =>
      rw [storeNewFile_isSome, storeNewFile_isSome]
    | some existing =>
      dsimp only
      by_cases hh : (existing.content_hash == g.content_hash) = true
      · rw [if_pos hh, if_pos hh]
      · rw [if_neg hh, if_neg hh]
        rw [storeNewFile_isSome, storeNewFile_isSome]

/-- Witness for C3: a two-entry local-index map covering an edge's
endpoints persists that edge with the translated identifiers 10 and 11. -/
theorem C3_edge_drop_safety_witness :
    ∃ ed ∈ (insertEdgesLoop sampleSt [(0, 10), (1, 11)]
        [{ source_idx := 0, target_idx := 1, edge_type := "calls", attributes := none }]).edges,
      ed.source_id = 10 ∧ ed.target_id = 11 ∧
        ed.edge_type = "calls" ∧ ed.attributes = none :=
  (C3_edge_drop_safety sampleSt 1 "/p/b.go" "go"
      { nodes := [], edges := [], content_hash := "x" } 0).2.2
    sampleSt [(0, 10), (1, 11)]
    [{ source_idx := 0, target_idx := 1, edge_type := "calls", attributes := none }]
    { source_idx := 0, target_idx := 1, edge_type := "calls", attributes := none } 10 11
    (List.mem_singleton.mpr rfl) rfl rfl

/-! ## C4: position lookup picks the innermost containing node -/

/-- The span sort key order is irreflexive. -/
theorem keyLt_irrefl (a : Int × Int) : keyLt a a = false := by
  simp [keyLt]

/-- The span sort key order is transitive. -/
theorem keyLt_trans {a b c : Int × Int} (h1 : keyLt a b = true)
    (h2 : keyLt b c = true) : keyLt a c = true := by
  simp only [keyLt, Bool.or_eq_true, Bool.and_eq_true, decide_eq_true_eq,
    beq_iff_eq] at h1 h2 ⊢
  omega

/-- Non-strict comparisons of span sort keys compose. -/
theorem keyLt_false_trans {a b c : Int × Int} (h1 : keyLt a b = false)
    (h2 : keyLt b c = false) : keyLt a c = false := by
  simp only [keyLt, Bool.or_eq_false_iff, Bool.and_eq_false_iff,
    decide_eq_false_iff_not, Bool.or_eq_true, Bool.and_eq_true,
    decide_eq_true_eq, beq_iff_eq, beq_eq_false_iff_ne] at h1 h2 ⊢
  omega

/-- What the fold behind `ORDER BY ... LIMIT 1` returns: an element of the
accumulator or the list whose key no element of either strictly beats. -/
theorem selectStep_foldl_spec (l : List NodeRec) :
    ∀ (acc : Option NodeRec) (n : NodeRec), l.foldl selectStep acc = some n →
      ((acc = some n ∨ n ∈ l)
        ∧ (∀ m, acc = some m → keyLt (spanKey m) (spanKey n) = false)
        ∧ (∀ m ∈ l, keyLt (spanKey m) (spanKey n) = false)) := by
  induction l with
  | nil =>
    intro acc n h
    simp only [List.foldl_nil] at h
    refine ⟨Or.inl h, ?_, by simp⟩
    intro m hm
    rw [hm] at h
    injection h with h
    rw [h]
    exact keyLt_irrefl _
  | cons x xs ih =>
    intro acc n h
    rw [List.foldl_cons] at h
    cases acc with
    | none =>
      have h' : xs.foldl selectStep (some x) = some n := h
      obtain ⟨hmem, hacc, hall⟩ := ih (some x) n h'
      refine ⟨?_, ?_, ?_⟩
      · rcases hmem with h0 | h0
        · injection h0 with h0
          exact Or.inr (h0 ▸ List.mem_cons_self x xs)
        · exact Or.inr (List.mem_cons_of_mem x h0)
      · intro m hm
        exact absurd hm (by simp)
      · intro m hm
        rcases List.mem_cons.mp hm with rfl | hxs
        · exact hacc m rfl
        · exact hall m hxs
    | some b =>
      by_cases hlt : keyLt (spanKey x) (spanKey b) = true
      · have h' : xs.foldl selectStep (some x) = some n := by
          rw [show selectStep (some b) x = some x from by
            simp [selectStep, hlt]] at h
          exact h
        obtain ⟨hmem, hacc, hall⟩ := ih (some x) n h'
        have hxn : keyLt (spanKey x) (spanKey n) = false := hacc x rfl
        refine ⟨?_, ?_, ?_⟩
        · rcases hmem with h0 | h0
          · injection h0 with h0
            exact Or.inr (h0 ▸ List.mem_cons_self x xs)
          · exact Or.inr (List.mem_cons_of_mem x h0)
        · intro m hm
          injection hm with hm
          subst hm
          cases hbn : keyLt (spanKey b) (spanKey n) with
          | false => rfl
          | true => exact absurd (keyLt_trans hlt hbn) (by rw [hxn]; simp)
        · intro m hm
          rcases List.mem_cons.mp hm with rfl | hxs
          · exact hxn
          · exact hall m hxs
      · have hltf : keyLt (spanKey x) (spanKey b) = false :=
          Bool.eq_false_iff.mpr hlt
        have h' : xs.foldl selectStep (some b) = some n := by
          rw [show selectStep (some b) x = some b from by
            simp [selectStep, hltf]] at h
          exact h
        obtain ⟨hmem, hacc, hall⟩ := ih (some b) n h'
        have hbn : keyLt (spanKey b) (spanKey n) = false := hacc b rfl
        refine ⟨?_, ?_, ?_⟩
        · rcases hmem with h0 | h0
          · exact Or.inl h0
          · exact Or.inr (List.mem_cons_of_mem x h0)
        · intro m hm
          injection hm with hm
          subst hm
          exact hbn
        · intro m hm
          rcases List.mem_cons.mp hm with rfl | hxs
          · exact keyLt_false_trans hltf hbn
          · exact hall m hxs

/-- C4: when position lookup returns a node, that node belongs to the
queried file of the project, its span contains `(line, column)` inclusively
with the boundary rule (column at or after the start column on the first
line, at or before the end column on the last line), and no other
containing node of that file has a lexicographically smaller
`(end_line - start_line, end_column - start_column)` key; concretely, with
`main` spanning lines 1-20 and `helper` spanning lines 5-8 both containing
(6, 1), the lookup at (6, 1) resolves to `helper`, not `main`. -/
theorem C4_innermost_position_lookup :
    (∀ (st : DB) (project_id : Int) (file_path : String) (line column : Nat)
      (n : NodeRec),
      findNodeAtPosition st project_id file_path line column = some n →
      (n ∈ st.nodes
        ∧ (∃ f ∈ st.files, f.id = n.file_id ∧ f.project_id = project_id ∧
            f.path = file_path)
        ∧ n.start_line ≤ line ∧ line ≤ n.end_line
        ∧ (line = n.start_line → n.start_column ≤ column)
        ∧ (line = n.end_line → column ≤ n.end_column)
        ∧ (∀ m ∈ st.nodes,
            (∃ f ∈ st.files, f.id = m.file_id ∧ f.project_id = project_id ∧
              f.path = file_path) →
            spanContains m line column = true →
            keyLt (spanKey m) (spanKey n) = false)))
    ∧ findNodeAtPosition sampleSt 1 "/p/a.go" 6 1 = some nodeHelper
    ∧ nodeMain.start_line = 1 ∧ nodeMain.end_line = 20
    ∧ nodeHelper.start_line = 5 ∧ nodeHelper.end_line = 8
    ∧ spanContains nodeMain 6 1 = true ∧ spanContains nodeHelper 6 1 = true
    ∧ nodeHelper ≠ nodeMain := by
  refine ⟨?_, by rfl, rfl, rfl, rfl, rfl, by rfl, by rfl, by decide⟩
  intro st project_id file_path line column n h
  unfold findNodeAtPosition selectMinByKey at h
  obtain ⟨hmem0, _, hall⟩ := selectStep_foldl_spec _ none n h
  have hmem : n ∈ st.nodes.filter (fun n =>
      st.files.any (fun f =>
        f.id == n.file_id && f.project_id == project_id &&
          f.path == file_path) && spanContains n line column) := by
    rcases hmem0 with h0 | h0
    · exact absurd h0 (by simp)
    · exact h0
  obtain ⟨hn_mem, hpred⟩ := List.mem_filter.mp hmem
  rw [Bool.and_eq_true] at hpred
  obtain ⟨hfile, hspan⟩ := hpred
  obtain ⟨f, hf_mem, hf⟩ := List.any_eq_true.mp hfile
  simp only [Bool.and_eq_true, beq_iff_eq] at hf
  have hspan' := hspan
  simp only [spanContains, Bool.and_eq_true, Bool.or_eq_true,
    decide_eq_true_eq] at hspan'
  obtain ⟨⟨⟨hsl, hel⟩, hbs⟩, hbe⟩ := hspan'
  refine ⟨hn_mem, ⟨f, hf_mem, hf.1.1, hf.1.2, hf.2⟩, hsl, hel, ?_, ?_, ?_⟩
  · intro heq
    rcases hbs with h1 | h1
    · omega
    · exact h1
  · intro heq
    rcases hbe with h1 | h1
    · omega
    · exact h1
  · intro m hm hmfile hmspan
    refine hall m (List.mem_filter.mpr ⟨hm, ?_⟩)
    rw [Bool.and_eq_true]
    refine ⟨?_, hmspan⟩
    obtain ⟨g, hg_mem, hg1, hg2, hg3⟩ := hmfile
    exact List.any_eq_true.mpr ⟨g, hg_mem, by simp [hg1, hg2, hg3]⟩

/-- Witness for C4: instantiating the lookup characterisation at the
sample store shows `main` (lines 1-20) never beats the returned `helper`
(lines 5-8) on the span key. -/
theorem C4_innermost_position_lookup_witness :
    keyLt (spanKey nodeMain) (spanKey nodeHelper) = false :=
  ((C4_innermost_position_lookup.1 sampleSt 1 "/p/a.go" 6 1 nodeHelper
      (by rfl)).2.2.2.2.2.2) nodeMain (by simp [sampleSt])
    ⟨fileA, by simp [sampleSt], rfl, rfl, rfl⟩ (by rfl)

/-! ## C5: find_definition follows the outgoing references edge -/

/-- A node with no outgoing `references` edge has no reference target. -/
theorem findReferenceTarget_none (st : DB) (node_id : Int)
    (h : ∀ e ∈ st.edges, ¬(e.source_id = node_id ∧ e.edge_type = "references")) :
    findReferenceTarget st node_id = none := by
  unfold findReferenceTarget
  rw [List.findSome?_eq_none_iff]
  intro e he
  rw [if_neg]
  intro hc
  rw [Bool.and_eq_true, beq_iff_eq, beq_iff_eq] at hc
  exact h e he hc

/-- When exactly one `references` edge leaves the node, the reference
target is that edge's target row. -/
theorem findReferenceTarget_unique (st : DB) (node_id : Int) (e : EdgeRec)
    (t : NodeRec) (he : e ∈ st.edges) (hsrc : e.source_id = node_id)
    (hty : e.edge_type = "references")
    (huniq : ∀ e' ∈ st.edges, e'.source_id = node_id →
      e'.edge_type = "references" → e' = e)
    (hl : lookupNode st e.target_id = some t) :
    findReferenceTarget st node_id = some t := by
  unfold findReferenceTarget
  have main : ∀ l : List EdgeRec, e ∈ l →
      (∀ e' ∈ l, e'.source_id = node_id → e'.edge_type = "references" → e' = e) →
      l.findSome? (fun ed =>
        if ed.source_id == node_id && ed.edge_type == "references" then
          lookupNode st ed.target_id
        else none) = some t := by
    intro l
    induction l with
    | nil => intro h; exact absurd h (List.not_mem_nil e)
    | cons x xs ih =>
      intro hmem huq
      rw [List.findSome?_cons]
      by_cases hx : (x.source_id == node_id && x.edge_type == "references") = true
      · have hprops := hx
        rw [Bool.and_eq_true, beq_iff_eq, beq_iff_eq] at hprops
        have hxe : x = e := huq x (List.mem_cons_self x xs) hprops.1 hprops.2
        rw [if_pos hx, hxe, hl]
      · have hexs : e ∈ xs := by
          rcases List.mem_cons.mp hmem with h0 | hxs
          · exact absurd (show (x.source_id == node_id &&
              x.edge_type == "references") = true by
                rw [← h0] at hx ⊢
                simp [hsrc, hty]) hx
          · exact hxs
        rw [if_neg hx]
        exact ih hexs (fun e' he' => huq e' (List.mem_cons_of_mem x he'))
  exact main st.edges he huniq

/-- C5: when a node is located at the position, `find_definition` reports
the target of the node's outgoing `references` edge when it has one and
the node's own location otherwise; when no node contains the position the
call succeeds with `found = false` instead of erroring. -/
theorem C5_find_definition_resolution :
    ∀ (st : DB) (project_id : Int) (file : String) (line column : Nat),
      (findNodeAtPosition st project_id file line column = none →
        findDefinition st project_id file line column
          = { found := false, definition := none })
      ∧ (∀ n, findNodeAtPosition st project_id file line column = some n →
          (∀ e ∈ st.edges, ¬(e.source_id = n.id ∧ e.edge_type = "references")) →
          findDefinition st project_id file line column
            = { found := true, definition := some (locationOf st n) })
      ∧ (∀ n e t, findNodeAtPosition st project_id file line column = some n →
          e ∈ st.edges → e.source_id = n.id → e.edge_type = "references" →
          (∀ e' ∈ st.edges, e'.source_id = n.id →
            e'.edge_type = "references" → e' = e) →
          lookupNode st e.target_id = some t →
          findDefinition st project_id file line column
            = { found := true, definition := some (locationOf st t) }) := by
  intro st project_id file line column
  refine ⟨?_, ?_, ?_⟩
  · intro h
    simp [findDefinition, h]
  · intro n h hno
    simp only [findDefinition, h]
    rw [findReferenceTarget_none st n.id hno]
  · intro n e t h he hsrc hty huniq hl
    simp only [findDefinition, h]
    rw [findReferenceTarget_unique st n.id e t he hsrc hty huniq hl]

/-- Witness for C5: at (6, 4) the reference node is located, its unique
`references` edge points at `helper`, and `find_definition` reports
`helper`'s location. -/
theorem C5_find_definition_resolution_witness :
    findDefinition sampleSt 1 "/p/a.go" 6 4
      = { found := true, definition := some (locationOf sampleSt nodeHelper) } :=
  (C5_find_definition_resolution sampleSt 1 "/p/a.go" 6 4).2.2
    nodeRefHelper edgeRef nodeHelper (by rfl) (by simp [sampleSt])
    rfl rfl (by decide) rfl

/-! ## C6: call-graph depth and direction semantics -/

/-- The caller collection ignores the depth value beyond zero testing. -/
theorem collectCallers_depth (st : DB) (node_id : Int) (depth : Nat)
    (hd : depth ≠ 0) : collectCallers st node_id depth = collectCallers st node_id 1 := by
  simp [collectCallers, hd]

/-- The callee collection ignores the depth value beyond zero testing. -/
theorem collectCallees_depth (st : DB) (node_id : Int) (depth : Nat)
    (hd : depth ≠ 0) : collectCallees st node_id depth = collectCallees st node_id 1 := by
  simp [collectCallees, hd]

/-- C6: on a resolvable symbol, depth 0 yields empty callers and callees
whatever edges exist; at any non-zero depth the callers are exactly the
sources of `calls` edges into the resolved node when the direction selects
them (empty otherwise), dually for callees; and every non-zero depth
produces the depth-1 result (one hop only). -/
theorem C6_callgraph_semantics (st : DB) (project_id : Int) (symbol : String)
    (n : NodeRec) (h : findSymbolByName st project_id symbol = some n) :
    (∀ direction, getCallgraph st project_id symbol 0 direction
        = some { center := symbolInfoOf st n, callers := [], callees := [] })
    ∧ (∀ depth direction r, depth ≠ 0 →
        getCallgraph st project_id symbol depth direction = some r →
        (((direction = "callers" ∨ direction = "both") →
          ∀ m, m ∈ r.callers ↔ ∃ e ∈ st.edges, e.edge_type = "calls" ∧
            e.target_id = n.id ∧
            ∃ c, lookupNode st e.source_id = some c ∧ m = symbolInfoOf st c)
        ∧ (¬(direction = "callers" ∨ direction = "both") → r.callers = [])
        ∧ ((direction = "callees" ∨ direction = "both") →
          ∀ m, m ∈ r.callees ↔ ∃ e ∈ st.edges, e.edge_type = "calls" ∧
            e.source_id = n.id ∧
            ∃ c, lookupNode st e.target_id = some c ∧ m = symbolInfoOf st c)
        ∧ (¬(direction = "callees" ∨ direction = "both") → r.callees = [])))
    ∧ (∀ depth direction, depth ≠ 0 →
        getCallgraph st project_id symbol depth direction
          = getCallgraph st project_id symbol 1 direction) := by
  refine ⟨?_, ?_, ?_⟩
  · intro direction
    simp [getCallgraph, h, collectCallers, collectCallees]
  · intro depth direction r hd hr
    simp only [getCallgraph, h, Option.some.injEq] at hr
    subst hr
    have hdep : (depth == 0) = false := by simp [hd]
    refine ⟨?_, ?_, ?_, ?_⟩
    · intro hdir m
      have hcond : (direction == "callers" || direction == "both") = true := by
        rcases hdir with h1 | h1 <;> simp [h1]
      simp only [hcond, if_true]
      simp [collectCallers, hdep, findCallers, List.mem_map,
        List.mem_filterMap, Option.ite_none_right_eq_some, Bool.and_eq_true,
        beq_iff_eq]
      tauto
    · intro hdir
      have hcond : (direction == "callers" || direction == "both") = false := by
        push_neg at hdir
        simp [hdir.1, hdir.2]
      simp [hcond]
    · intro hdir m
      have hcond : (direction == "callees" || direction == "both") = true := by
        rcases hdir with h1 | h1 <;> simp [h1]
      simp only [hcond, if_true]
      simp [collectCallees, hdep, findCallees, List.mem_map,
        List.mem_filterMap, Option.ite_none_right_eq_some, Bool.and_eq_true,
        beq_iff_eq]
      tauto
    · intro hdir
      have hcond : (direction == "callees" || direction == "both") = false := by
        push_neg at hdir
        simp [hdir.1, hdir.2]
      simp [hcond]
  · intro depth direction hd
    rw [show getCallgraph st project_id symbol depth direction
        = getCallgraph st project_id symbol 1 direction from by
      simp only [getCallgraph, h, collectCallers_depth st n.id depth hd,
        collectCallees_depth st n.id depth hd]]

/-- Witness for C6: for `helper` in the sample store, depth 0 returns an
empty call graph around the resolved centre. -/
theorem C6_callgraph_semantics_witness :
    getCallgraph sampleSt 1 "helper" 0 "both"
      = some { center := symbolInfoOf sampleSt nodeHelper
               callers := [], callees := [] } :=
  (C6_callgraph_semantics sampleSt 1 "helper" nodeHelper (by rfl)).1 "both"

/-! ## C7: hard error for call-graph centre, empty success elsewhere -/

/-- C7: `get_callgraph` is a hard error (`none`) whenever no project node
matches the symbol by name or qualified name, while `find_references` with
no referencing nodes and `search_symbols` with no matching nodes both
succeed with count 0 and an empty list. -/
theorem C7_error_asymmetry (st : DB) (project_id : Int) :
    (∀ symbol (depth : Nat) direction,
      findSymbolByName st project_id symbol = none →
      getCallgraph st project_id symbol depth direction = none)
    ∧ (∀ file (line column : Nat),
        findNodeAtPosition st project_id file line column = none →
        findReferences st project_id file line column
          = { count := 0, references := [] })
    ∧ (∀ file (line column : Nat) n,
        findNodeAtPosition st project_id file line column = some n →
        findAllReferences st n.id = [] →
        findReferences st project_id file line column
          = { count := 0, references := [] })
    ∧ (∀ query symbol_type (limit : Nat),
        (∀ n ∈ st.nodes,
          (inProject st project_id n &&
            (match symbol_type with
             | some t => n.node_type == t
             | none => true) &&
            searchNameMatches query n) = false) →
        searchSymbolsQ st project_id query symbol_type limit
          = { count := 0, symbols := [] }) := by
  refine ⟨?_, ?_, ?_, ?_⟩
  · intro symbol depth direction h
    simp [getCallgraph, h]
  · intro file line column h
    simp [findReferences, h]
  · intro file line column n h hrefs
    simp [findReferences, h, hrefs]
  · intro query symbol_type limit h
    cases symbol_type with
    | none =>
      dsimp only at h
      have hfil : st.nodes.filter (fun n =>
          inProject st project_id n && true && searchNameMatches query n) = [] :=
        List.filter_eq_nil_iff.mpr (fun n hn => by
          rw [h n hn]
          exact Bool.false_ne_true)
      unfold searchSymbolsQ searchSymbolsDb
      dsimp only
      rw [hfil]
      simp
    | some t =>
      dsimp only at h
      have hfil : st.nodes.filter (fun n =>
          inProject st project_id n && (n.node_type == t) &&
            searchNameMatches query n) = [] :=
        List.filter_eq_nil_iff.mpr (fun n hn => by
          rw [h n hn]
          exact Bool.false_ne_true)
      unfold searchSymbolsQ searchSymbolsDb
      dsimp only
      rw [hfil]
      simp

/-- Witness for C7: an unknown call-graph symbol errors while a reference
query at an empty position and a search with no matches return empty
results in the sample store. -/
theorem C7_error_asymmetry_witness :
    getCallgraph sampleSt 1 "nosuch" 2 "both" = none
    ∧ findReferences sampleSt 1 "/p/a.go" 50 1 = { count := 0, references := [] }
    ∧ searchSymbolsQ sampleSt 1 "zzz" none 10 = { count := 0, symbols := [] } :=
  ⟨(C7_error_asymmetry sampleSt 1).1 "nosuch" 2 "both" (by rfl),
   (C7_error_asymmetry sampleSt 1).2.1 "/p/a.go" 50 1 (by rfl),
   (C7_error_asymmetry sampleSt 1).2.2.2 "zzz" none 10 (by
     intro n hn
     simp only [sampleSt, List.mem_cons, List.not_mem_nil, or_false] at hn
     rcases hn with rfl | rfl | rfl <;>
       simp [inProject, searchNameMatches, likeContains, likeMatch, lowerChar,
         sampleSt, nodeMain, nodeHelper, nodeRefHelper, fileA])⟩

/-! ## C8: search_symbols matching, filtering and truncation -/

/-- C8 counterexample: the code's search, evaluated on a store whose only
node is the class `userservice`, returns that node for the query `User`
even though `User` is not a case-sensitive substring of `userservice` (and
the node has no qualified name) — so the match is not case-sensitive as
claimed. -/
theorem C8_search_case_counterexample :
    nodeLowerService ∈ searchSymbolsDb stLower 1 "User" none 10
    ∧ specCaseSensitiveSub "User" nodeLowerService.name = false
    ∧ nodeLowerService.qualified_name = none := by
  refine ⟨?_, by decide, rfl⟩
  simp [searchSymbolsDb, stLower, inProject, searchNameMatches, likeContains,
    likeMatch, lowerChar, fileA, nodeLowerService, projP]

/-- C8 (amended): `search_symbols` returns exactly the project's nodes
whose name or qualified name matches the query under SQLite `LIKE`
(`%query%`, ASCII-case-insensitive), restricted to the exact kind when a
type filter is given, truncated to at most `limit` rows: every returned
row matches, at most `limit` rows return, every matching row returns while
the limit is not yet reached, and over {UserService, UserRepository,
OrderService} the query `User` returns exactly the two `User*` names. -/
theorem C8_search_characterisation (st : DB) (project_id : Int)
    (query : String) (symbol_type : Option String) (limit : Nat) :
    (∀ n ∈ searchSymbolsDb st project_id query symbol_type limit,
      n ∈ st.nodes ∧ inProject st project_id n = true ∧
        searchNameMatches query n = true ∧
        (∀ t, symbol_type = some t → n.node_type = t))
    ∧ (searchSymbolsDb st project_id query symbol_type limit).length ≤ limit
    ∧ ((searchSymbolsDb st project_id query symbol_type limit).length < limit →
        ∀ n ∈ st.nodes, inProject st project_id n = true →
        (symbol_type = none ∨ symbol_type = some n.node_type) →
        searchNameMatches query n = true →
        n ∈ searchSymbolsDb st project_id query symbol_type limit)
    ∧ (searchSymbolsDb stUsers 1 "User" none 10).map (fun n => n.name)
        = ["UserService", "UserRepository"] := by
  refine ⟨?_, ?_, ?_, ?_⟩
  · intro n hn
    have hn' := List.take_subset limit _ hn
    obtain ⟨hmem, hpred⟩ := List.mem_filter.mp hn'
    rw [Bool.and_eq_true, Bool.and_eq_true] at hpred
    obtain ⟨⟨hproj, hty⟩, hmatch⟩ := hpred
    refine ⟨hmem, hproj, hmatch, ?_⟩
    intro t hst
    subst hst
    dsimp only at hty
    exact beq_iff_eq.mp hty
  · rw [searchSymbolsDb, List.length_take]
    exact Nat.min_le_left _ _
  · intro hlt n hn hproj hty hmatch
    cases symbol_type with
    | none =>
      dsimp only [searchSymbolsDb] at hlt ⊢
      rw [List.length_take] at hlt
      have hflen : (st.nodes.filter (fun m =>
          inProject st project_id m && true &&
            searchNameMatches query m)).length ≤ limit := by omega
      rw [List.take_of_length_le hflen]
      refine List.mem_filter.mpr ⟨hn, ?_⟩
      rw [Bool.and_eq_true, Bool.and_eq_true]
      exact ⟨⟨hproj, rfl⟩, hmatch⟩
    | some t =>
      obtain rfl : t = n.node_type := by
        rcases hty with h0 | h0
        · exact absurd h0 (by simp)
        · exact Option.some_inj.mp h0
      dsimp only [searchSymbolsDb] at hlt ⊢
      rw [List.length_take] at hlt
      have hflen : (st.nodes.filter (fun m =>
          inProject st project_id m && (m.node_type == n.node_type) &&
            searchNameMatches query m)).length ≤ limit := by omega
      rw [List.take_of_length_le hflen]
      refine List.mem_filter.mpr ⟨hn, ?_⟩
      rw [Bool.and_eq_true, Bool.and_eq_true]
      exact ⟨⟨hproj, by simp⟩, hmatch⟩
  · simp [searchSymbolsDb, stUsers, inProject, searchNameMatches, likeContains,
      likeMatch, lowerChar, fileA, projP, nodeUserService, nodeUserRepo,
      nodeOrderService]

/-- Witness for C8 (amended): `UserService` is among the results for
`User` in the sample class store and satisfies each guaranteed property. -/
theorem C8_search_characterisation_witness :
    nodeUserService ∈ stUsers.nodes ∧ inProject stUsers 1 nodeUserService = true ∧
      searchNameMatches "User" nodeUserService = true ∧
      (∀ t, (none : Option String) = some t → nodeUserService.node_type = t) :=
  (C8_search_characterisation stUsers 1 "User" none 10).1 nodeUserService (by
    simp [searchSymbolsDb, stUsers, inProject, searchNameMatches, likeContains,
      likeMatch, lowerChar, fileA, projP, nodeUserService, nodeUserRepo,
      nodeOrderService])

/-! ## Lemmas on the cross-reference resolution loop (C1, C9) -/

/-- Unfolding the resolution loop when the head name resolves. -/
theorem bcrLoop_cons_some (st : DB) (project_id r : Int) (nm : String)
    (rest : List (Int × String)) (d : Int)
    (hfd : findDefinitionByName st project_id nm = some d) :
    bcrLoop st project_id ((r, nm) :: rest)
      = bcrLoop (insertEdge st
          { id := 0, source_id := r, target_id := d
            edge_type := "references", attributes := none }).2
          project_id rest := by
  simp [bcrLoop, hfd]

/-- Unfolding the resolution loop when the head name does not resolve. -/
theorem bcrLoop_cons_none (st : DB) (project_id r : Int) (nm : String)
    (rest : List (Int × String))
    (hfd : findDefinitionByName st project_id nm = none) :
    bcrLoop st project_id ((r, nm) :: rest) = bcrLoop st project_id rest := by
  simp [bcrLoop, hfd]

/-- The definition lookup reads only the node and file tables. -/
theorem findDefinitionByName_congr (st st' : DB) (project_id : Int)
    (name : String) (h1 : st'.nodes = st.nodes) (h2 : st'.files = st.files) :
    findDefinitionByName st' project_id name
      = findDefinitionByName st project_id name := by
  simp only [findDefinitionByName, inProject, h1, h2]

/-- Inserting an edge does not change what any name resolves to. -/
theorem findDefinitionByName_insertEdge (st : DB) (e : EdgeRec)
    (project_id : Int) (name : String) :
    findDefinitionByName (insertEdge st e).2 project_id name
      = findDefinitionByName st project_id name :=
  findDefinitionByName_congr (insertEdge st e).2 st project_id name rfl rfl

/-- The unresolved-reference query reads only nodes, files and edges. -/
theorem getUnresolvedReferences_congr (st st' : DB) (project_id : Int)
    (h1 : st'.nodes = st.nodes) (h2 : st'.files = st.files)
    (h3 : st'.edges = st.edges) :
    getUnresolvedReferences st' project_id
      = getUnresolvedReferences st project_id := by
  simp only [getUnresolvedReferences, inProject, hasOutgoingRefEdge, h1, h2, h3]

/-- The project membership test reads only the file table. -/
theorem inProject_congr (st st' : DB) (project_id : Int) (n : NodeRec)
    (h2 : st'.files = st.files) :
    inProject st' project_id n = inProject st project_id n := by
  simp only [inProject, h2]

/-- The resolution loop never touches the node table. -/
theorem bcrLoop_nodes (project_id : Int) :
    ∀ (l : List (Int × String)) (st : DB),
      (bcrLoop st project_id l).nodes = st.nodes := by
  intro l
  induction l with
  | nil => intro st; rfl
  | cons p rest ih =>
    intro st
    rcases p with ⟨r, nm⟩
    cases hfd : findDefinitionByName st project_id nm with
    | some d => rw [bcrLoop_cons_some st project_id r nm rest d hfd]; rw [ih]; rfl
    | none => rw [bcrLoop_cons_none st project_id r nm rest hfd]; exact ih st

/-- The resolution loop never touches the file table. -/
theorem bcrLoop_files (project_id : Int) :
    ∀ (l : List (Int × String)) (st : DB),
      (bcrLoop st project_id l).files = st.files := by
  intro l
  induction l with
  | nil => intro st; rfl
  | cons p rest ih =>
    intro st
    rcases p with ⟨r, nm⟩
    cases hfd : findDefinitionByName st project_id nm with
    | some d => rw [bcrLoop_cons_some st project_id r nm rest d hfd]; rw [ih]; rfl
    | none => rw [bcrLoop_cons_none st project_id r nm rest hfd]; exact ih st

/-- The resolution loop only appends to the edge table. -/
theorem bcrLoop_edges_mono (project_id : Int) :
    ∀ (l : List (Int × String)) (st : DB),
      ∃ ext, (bcrLoop st project_id l).edges = st.edges ++ ext := by
  intro l
  induction l with
  | nil => intro st; exact ⟨[], by simp [bcrLoop]⟩
  | cons p rest ih =>
    intro st
    rcases p with ⟨r, nm⟩
    cases hfd : findDefinitionByName st project_id nm with
    | some d =>
      rw [bcrLoop_cons_some st project_id r nm rest d hfd]
      obtain ⟨ext, hext⟩ := ih (insertEdge st
        { id := 0, source_id := r, target_id := d
          edge_type := "references", attributes := none }).2
      refine ⟨{ id := st.nextEdgeId, source_id := r, target_id := d, edge_type := "references", attributes := none } :: ext, ?_⟩
      simp only [insertEdge] at hext
      simpa using hext
    | none =>
      rw [bcrLoop_cons_none st project_id r nm rest hfd]
      exact ih st

/-- An existing outgoing `references` edge survives any edge append. -/
theorem hasOutgoingRefEdge_append (st st' : DB) (rid : Int)
    (ext : List EdgeRec) (h : st'.edges = st.edges ++ ext)
    (hb : hasOutgoingRefEdge st rid = true) :
    hasOutgoingRefEdge st' rid = true := by
  unfold hasOutgoingRefEdge at hb ⊢
  rw [h, List.any_append, hb]
  rfl

/-- Every unresolved pair handed to the loop ends up either resolved (an
outgoing `references` edge exists afterwards) or undefinable (its name has
no definition-kind node). -/
theorem bcrLoop_resolves (project_id : Int) :
    ∀ (l : List (Int × String)) (st : DB) (rid : Int) (name : String),
      (rid, name) ∈ l →
      (hasOutgoingRefEdge (bcrLoop st project_id l) rid = true
        ∨ findDefinitionByName st project_id name = none) := by
  intro l
  induction l with
  | nil => intro st rid name hmem; exact absurd hmem (List.not_mem_nil _)
  | cons p rest ih =>
    intro st rid name hmem
    rcases p with ⟨r, nm⟩
    cases hfd : findDefinitionByName st project_id nm with
    | some d =>
      rw [bcrLoop_cons_some st project_id r nm rest d hfd]
      rcases List.mem_cons.mp hmem with heq | hrest
      · left
        obtain ⟨hr, hnm⟩ := Prod.mk.injEq .. ▸ heq
        subst hr
        obtain ⟨ext, hext⟩ := bcrLoop_edges_mono project_id rest (insertEdge st
          { id := 0, source_id := rid, target_id := d
            edge_type := "references", attributes := none }).2
        refine hasOutgoingRefEdge_append _ _ rid ext hext ?_
        simp [hasOutgoingRefEdge, insertEdge, List.any_append]
      · rcases ih (insertEdge st
            { id := 0, source_id := r, target_id := d
              edge_type := "references", attributes := none }).2
            rid name hrest with h | h
        · exact Or.inl h
        · right
          rwa [findDefinitionByName_insertEdge] at h
    | none =>
      rw [bcrLoop_cons_none st project_id r nm rest hfd]
      rcases List.mem_cons.mp hmem with heq | hrest
      · obtain ⟨hr, hnm⟩ := Prod.mk.injEq .. ▸ heq
        subst hnm
        exact Or.inr hfd
      · exact ih st rid name hrest

/-- The loop is a no-op when no handed name resolves. -/
theorem bcrLoop_noop (project_id : Int) :
    ∀ (l : List (Int × String)) (st : DB),
      (∀ p ∈ l, findDefinitionByName st project_id p.2 = none) →
      bcrLoop st project_id l = st := by
  intro l
  induction l with
  | nil => intro st _; rfl
  | cons p rest ih =>
    intro st h
    rcases p with ⟨r, nm⟩
    rw [bcrLoop_cons_none st project_id r nm rest
      (h (r, nm) (List.mem_cons_self _ _))]
    exact ih st (fun q hq => h q (List.mem_cons_of_mem _ hq))

/-- A pair whose name resolves gets its `references` edge inserted by the
loop, from the reference node to the found definition. -/
theorem bcrLoop_inserts (project_id : Int) :
    ∀ (l : List (Int × String)) (st : DB) (rid d : Int) (name : String),
      (rid, name) ∈ l →
      findDefinitionByName st project_id name = some d →
      ∃ e ∈ (bcrLoop st project_id l).edges,
        e.source_id = rid ∧ e.target_id = d ∧ e.edge_type = "references" := by
  intro l
  induction l with
  | nil => intro st rid d name hmem; exact absurd hmem (List.not_mem_nil _)
  | cons p rest ih =>
    intro st rid d name hmem hfd
    rcases p with ⟨r, nm⟩
    cases hfd0 : findDefinitionByName st project_id nm with
    | some d0 =>
      rw [bcrLoop_cons_some st project_id r nm rest d0 hfd0]
      rcases List.mem_cons.mp hmem with heq | hrest
      · obtain ⟨hr, hnm⟩ := Prod.mk.injEq .. ▸ heq
        subst hr
        subst hnm
        have hd : d0 = d := by
          rw [hfd0] at hfd
          exact (Option.some.injEq .. ▸ hfd)
        subst hd
        obtain ⟨ext, hext⟩ := bcrLoop_edges_mono project_id rest (insertEdge st
          { id := 0, source_id := rid, target_id := d0
            edge_type := "references", attributes := none }).2
        refine ⟨{ id := st.nextEdgeId, source_id := rid, target_id := d0, edge_type := "references", attributes := none }, ?_, rfl, rfl, rfl⟩
        rw [hext]
        simp [insertEdge]
      · refine ih _ rid d name hrest ?_
        rwa [findDefinitionByName_insertEdge]
    | none =>
      rw [bcrLoop_cons_none st project_id r nm rest hfd0]
      rcases List.mem_cons.mp hmem with heq | hrest
      · obtain ⟨hr, hnm⟩ := Prod.mk.injEq .. ▸ heq
        subst hnm
        rw [hfd0] at hfd
        exact absurd hfd (by simp)
      · exact ih st rid d name hrest hfd

/-- A node with no outgoing `references` edge stays without one through a
loop run in which every pair carrying its id fails to resolve. -/
theorem bcrLoop_preserves_no_edge (project_id rid : Int) :
    ∀ (l : List (Int × String)) (st : DB),
      hasOutgoingRefEdge st rid = false →
      (∀ p ∈ l, p.1 = rid → findDefinitionByName st project_id p.2 = none) →
      hasOutgoingRefEdge (bcrLoop st project_id l) rid = false := by
  intro l
  induction l with
  | nil => intro st h0 _; exact h0
  | cons p rest ih =>
    intro st h0 hl
    rcases p with ⟨r, nm⟩
    cases hfd : findDefinitionByName st project_id nm with
    | some d =>
      have hr : (r == rid) = false := by
        rw [beq_eq_false_iff_ne]
        intro hc
        rw [hl (r, nm) (List.mem_cons_self _ _) hc] at hfd
        exact Option.noConfusion hfd
      rw [bcrLoop_cons_some st project_id r nm rest d hfd]
      refine ih _ ?_ ?_
      · simp only [hasOutgoingRefEdge, insertEdge, List.any_append]
        rw [show st.edges.any (fun e =>
            e.source_id == rid && e.edge_type == "references") = false from h0]
        simp [hr]
      · intro q hq hqr
        rw [findDefinitionByName_insertEdge]
        exact hl q (List.mem_cons_of_mem _ hq) hqr
    | none =>
      rw [bcrLoop_cons_none st project_id r nm rest hfd]
      exact ih st h0 (fun q hq => hl q (List.mem_cons_of_mem _ hq))

/-- Membership in the unresolved set of a project, spelled out. -/
theorem mem_getUnresolvedReferences (st : DB) (project_id rid : Int)
    (name : String) :
    (rid, name) ∈ getUnresolvedReferences st project_id ↔
      ∃ n ∈ st.nodes, n.id = rid ∧ n.name = name ∧
        inProject st project_id n = true ∧ n.node_type = "reference" ∧
        hasOutgoingRefEdge st rid = false := by
  unfold getUnresolvedReferences
  rw [List.mem_map]
  constructor
  · rintro ⟨n, hnf, heq⟩
    obtain ⟨hn, hpred⟩ := List.mem_filter.mp hnf
    rw [Bool.and_eq_true, Bool.and_eq_true] at hpred
    obtain ⟨⟨hproj, htype⟩, hnoedge⟩ := hpred
    have h1 : n.id = rid := congrArg Prod.fst heq
    have h2 : n.name = name := congrArg Prod.snd heq
    refine ⟨n, hn, h1, h2, hproj, beq_iff_eq.mp htype, ?_⟩
    rw [← h1]
    simpa using hnoedge
  · rintro ⟨n, hn, h1, h2, hproj, htype, hnoedge⟩
    refine ⟨n, List.mem_filter.mpr ⟨hn, ?_⟩, by rw [h1, h2]⟩
    rw [Bool.and_eq_true, Bool.and_eq_true]
    refine ⟨⟨hproj, beq_iff_eq.mpr htype⟩, ?_⟩
    rw [h1]
    simp [hnoedge]

/-! ## C9: build_cross_references is idempotent -/

/-- C9: re-running `build_cross_references` immediately after a run leaves
the edge table — hence the `references` edge set — unchanged; the
unresolved set consists exactly of `reference`-kind project nodes lacking
an outgoing `references` edge; and an unresolved reference whose name
matches no definition-kind node stays unresolved after the run. -/
theorem C9_cross_reference_idempotent (st : DB) (project_id : Int)
    (now1 now2 : Nat)
    (hids : (st.nodes.map (fun n => n.id)).Nodup) :
    ((buildCrossReferences (buildCrossReferences st project_id now1)
        project_id now2).edges
      = (buildCrossReferences st project_id now1).edges)
    ∧ (∀ rid name, (rid, name) ∈ getUnresolvedReferences st project_id →
        ∃ n ∈ st.nodes, n.id = rid ∧ n.name = name ∧
          inProject st project_id n = true ∧ n.node_type = "reference" ∧
          hasOutgoingRefEdge st rid = false)
    ∧ (∀ rid name, (rid, name) ∈ getUnresolvedReferences st project_id →
        findDefinitionByName st project_id name = none →
        (rid, name) ∈ getUnresolvedReferences
          (buildCrossReferences st project_id now1) project_id) := by
  have hBn : (buildCrossReferences st project_id now1).nodes = st.nodes :=
    bcrLoop_nodes project_id (getUnresolvedReferences st project_id) st
  have hBf : (buildCrossReferences st project_id now1).files = st.files :=
    bcrLoop_files project_id (getUnresolvedReferences st project_id) st
  have hBe : (buildCrossReferences st project_id now1).edges
      = (bcrLoop st project_id (getUnresolvedReferences st project_id)).edges :=
    rfl
  have hkey : ∀ p ∈ getUnresolvedReferences
      (buildCrossReferences st project_id now1) project_id,
      findDefinitionByName (buildCrossReferences st project_id now1)
        project_id p.2 = none := by
    intro p hp
    rcases p with ⟨rid, name⟩
    obtain ⟨n, hn, hid, hname, hproj1, htype, hnoedge1⟩ :=
      (mem_getUnresolvedReferences _ project_id rid name).mp hp
    have hn' : n ∈ st.nodes := hBn ▸ hn
    have hproj : inProject st project_id n = true := by
      rw [← inProject_congr st (buildCrossReferences st project_id now1)
        project_id n hBf]
      exact hproj1
    have hno_st : hasOutgoingRefEdge st rid = false := by
      cases hb : hasOutgoingRefEdge st rid with
      | false => rfl
      | true =>
        obtain ⟨ext, hext⟩ := bcrLoop_edges_mono project_id
          (getUnresolvedReferences st project_id) st
        have htrue := hasOutgoingRefEdge_append st
          (buildCrossReferences st project_id now1) rid ext (by rw [hBe, hext]) hb
        rw [htrue] at hnoedge1
        exact absurd hnoedge1 (by simp)
    have hmem_st : (rid, name) ∈ getUnresolvedReferences st project_id :=
      (mem_getUnresolvedReferences st project_id rid name).mpr
        ⟨n, hn', hid, hname, hproj, htype, hno_st⟩
    rcases bcrLoop_resolves project_id (getUnresolvedReferences st project_id)
        st rid name hmem_st with h | h
    · have h' : hasOutgoingRefEdge (buildCrossReferences st project_id now1)
          rid = true := h
      rw [h'] at hnoedge1
      exact absurd hnoedge1 (by simp)
    · show findDefinitionByName (buildCrossReferences st project_id now1)
        project_id name = none
      rw [findDefinitionByName_congr st (buildCrossReferences st project_id now1)
        project_id name hBn hBf]
      exact h
  refine ⟨?_, ?_, ?_⟩
  · have hnoop : bcrLoop (buildCrossReferences st project_id now1) project_id
        (getUnresolvedReferences (buildCrossReferences st project_id now1)
          project_id)
        = buildCrossReferences st project_id now1 :=
      bcrLoop_noop project_id _ _ hkey
    show (bcrLoop (buildCrossReferences st project_id now1) project_id
        (getUnresolvedReferences (buildCrossReferences st project_id now1)
          project_id)).edges
      = (buildCrossReferences st project_id now1).edges
    rw [hnoop]
  · intro rid name hmem
    exact (mem_getUnresolvedReferences st project_id rid name).mp hmem
  · intro rid name hmem hfdnone
    obtain ⟨n, hn, hid, hname, hproj, htype, hnoedge⟩ :=
      (mem_getUnresolvedReferences st project_id rid name).mp hmem
    refine (mem_getUnresolvedReferences _ project_id rid name).mpr
      ⟨n, ?_, hid, hname, ?_, htype, ?_⟩
    · rw [hBn]; exact hn
    · rw [inProject_congr st (buildCrossReferences st project_id now1)
        project_id n hBf]
      exact hproj
    · show hasOutgoingRefEdge (buildCrossReferences st project_id now1)
        rid = false
      have hloop : hasOutgoingRefEdge
          (bcrLoop st project_id (getUnresolvedReferences st project_id))
          rid = false := by
        refine bcrLoop_preserves_no_edge project_id rid
          (getUnresolvedReferences st project_id) st hnoedge ?_
        intro p hp hpr
        rcases p with ⟨r, nm⟩
        obtain ⟨n', hn', hid', hname', _, _, _⟩ :=
          (mem_getUnresolvedReferences st project_id r nm).mp hp
        have hpr' : r = rid := hpr
        have hsame : n' = n :=
          List.inj_on_of_nodup_map hids hn' hn
            (by rw [hid', hid]; exact hpr')
        have hnm : nm = name := by rw [← hname', hsame, hname]
        show findDefinitionByName st project_id nm = none
        rw [hnm]
        exact hfdnone
      exact hloop

/-- Witness for C9: on the store with one unresolved reference to `helper`
and its function definition, the second run changes no edge. -/
theorem C9_cross_reference_idempotent_witness :
    (buildCrossReferences (buildCrossReferences stC9pre 1 0) 1 1).edges
      = (buildCrossReferences stC9pre 1 0).edges :=
  (C9_cross_reference_idempotent stC9pre 1 0 1 (by decide)).1

/-! ## C1: cross-reference resolution and the definition-kind set -/

/-- C1 counterexample: in a project whose only candidate for the
unresolved reference `x` is a `field`-kind node — a kind the claim's set
includes — `build_cross_references` inserts nothing: the SQL IN-list of
`find_definition_by_name` has no `field`, so the claimed edge never
appears and the edge table stays empty. -/
theorem C1_field_kind_counterexample :
    getUnresolvedReferences stFieldRef 1 = [(20, "x")]
    ∧ (∃ n ∈ stFieldRef.nodes, inProject stFieldRef 1 n = true ∧
        n.name = "x" ∧ n.node_type ∈ (["class", "method", "function",
          "interface", "struct", "field", "variable"] : List String))
    ∧ findDefinitionByName stFieldRef 1 "x" = none
    ∧ (buildCrossReferences stFieldRef 1 5).edges = [] := by
  refine ⟨by decide, ?_, by decide, by decide⟩
  decide

/-- C1 (amended): for every unresolved reference `(rid, N)`, when the
store's first project node named `N` with kind in the closed set
{function, method, class, interface, struct, variable} — `field`
excluded, and never `call` or `reference` — exists,
`build_cross_references` inserts a `references` edge from the reference
node to it; and the lookup finds exactly the first node of the table
satisfying those conditions. -/
theorem C1_cross_reference_resolution (st : DB) (project_id : Int)
    (now : Nat) (rid : Int) (N : String)
    (h1 : (rid, N) ∈ getUnresolvedReferences st project_id) :
    (∀ d, findDefinitionByName st project_id N = some d →
      (∃ e ∈ (buildCrossReferences st project_id now).edges,
        e.source_id = rid ∧ e.target_id = d ∧ e.edge_type = "references")
      ∧ ∃ n ∈ st.nodes, n.id = d ∧ inProject st project_id n = true ∧
          n.name = N ∧
          n.node_type ∈ (["function", "method", "class", "interface",
            "struct", "variable"] : List String) ∧
          n.node_type ≠ "call" ∧ n.node_type ≠ "reference")
    ∧ (∀ (pre post : List NodeRec) (n : NodeRec), st.nodes = pre ++ n :: post →
        inProject st project_id n = true → n.name = N →
        n.node_type ∈ (["function", "method", "class", "interface",
          "struct", "variable"] : List String) →
        (∀ m ∈ pre, ¬(inProject st project_id m = true ∧ m.name = N ∧
          m.node_type ∈ (["function", "method", "class", "interface",
            "struct", "variable"] : List String))) →
        findDefinitionByName st project_id N = some n.id) := by
  have hpredIff : ∀ m : NodeRec,
      ((inProject st project_id m && m.name == N &&
        definitionKinds.contains m.node_type) = true)
      ↔ (inProject st project_id m = true ∧ m.name = N ∧
          m.node_type ∈ (["function", "method", "class", "interface",
            "struct", "variable"] : List String)) := by
    intro m
    rw [Bool.and_eq_true, Bool.and_eq_true]
    constructor
    · rintro ⟨⟨hp, hn⟩, hk⟩
      exact ⟨hp, beq_iff_eq.mp hn, by
        have := List.elem_iff.mp hk
        simpa [definitionKinds] using this⟩
    · rintro ⟨hp, hn, hk⟩
      exact ⟨⟨hp, beq_iff_eq.mpr hn⟩, List.elem_iff.mpr (by
        simpa [definitionKinds] using hk)⟩
  constructor
  · intro d hfd
    constructor
    · exact bcrLoop_inserts project_id (getUnresolvedReferences st project_id)
        st rid d N h1 hfd
    · unfold findDefinitionByName at hfd
      obtain ⟨n, hfind, hid⟩ := Option.map_eq_some'.mp hfd
      have hmem := List.mem_of_find?_eq_some hfind
      have hpred := List.find?_some hfind
      obtain ⟨hp, hn, hk⟩ := (hpredIff n).mp hpred
      have hk' : n.node_type = "function" ∨ n.node_type = "method" ∨
          n.node_type = "class" ∨ n.node_type = "interface" ∨
          n.node_type = "struct" ∨ n.node_type = "variable" := by
        simpa using hk
      refine ⟨n, hmem, hid, hp, hn, hk, ?_, ?_⟩
      · rcases hk' with h0 | h0 | h0 | h0 | h0 | h0 <;> rw [h0] <;> decide
      · rcases hk' with h0 | h0 | h0 | h0 | h0 | h0 <;> rw [h0] <;> decide
  · intro pre post n hsplit hp hn hk hfirst
    unfold findDefinitionByName
    rw [hsplit]
    have hmain : ∀ (l : List NodeRec),
        (∀ m ∈ l, ¬(inProject st project_id m = true ∧ m.name = N ∧
          m.node_type ∈ (["function", "method", "class", "interface",
            "struct", "variable"] : List String))) →
        List.find? (fun m => inProject st project_id m && m.name == N &&
          definitionKinds.contains m.node_type) (l ++ n :: post) = some n := by
      intro l
      induction l with
      | nil =>
        intro _
        rw [List.nil_append]
        exact List.find?_cons_of_pos post ((hpredIff n).mpr ⟨hp, hn, hk⟩)
      | cons x xs ih =>
        intro hfalse
        rw [List.cons_append]
        have hxneg : ¬((fun m => inProject st project_id m && m.name == N &&
            definitionKinds.contains m.node_type) x = true) := fun hc =>
          hfalse x (List.mem_cons_self x xs) ((hpredIff x).mp hc)
        rw [List.find?_cons_of_neg (xs ++ n :: post) hxneg]
        exact ih (fun m hm => hfalse m (List.mem_cons_of_mem x hm))
    rw [hmain pre hfirst]
    rfl

/-- Witness for C1 (amended): on the store with a reference to `helper`
and its function definition, the run inserts the edge 40 → 41. -/
theorem C1_cross_reference_resolution_witness :
    ∃ e ∈ (buildCrossReferences stC9pre 1 9).edges,
      e.source_id = 40 ∧ e.target_id = 41 ∧ e.edge_type = "references" :=
  ((C1_cross_reference_resolution stC9pre 1 9 40 "helper" (by decide)).1
    41 (by decide)).1
